import Mathlib

/-!
Shallow embedding of the deployment-lineage table module (`lib/azure/deploymenttable.ts`
of the spk repository): the `DeploymentTable` descriptor, the lineage row schema, the
query/insert/replace primitives, the three stage resolvers and the manifest-commit
finalizer, together with theorems checking the specification's claims about them.

The Azure table is modelled as a list of rows; `insertEntity` appends and
`replaceEntity` replaces the row with the same `(PartitionKey, RowKey)` pair.
Row fields that a row may lack in storage are `Option String` (an absent field is
`none`); the random UUID consumed by `getRowKey` is passed in explicitly as a string.
-/

namespace Spk

/-- Embeds `DeploymentTable`: connection and partition information for the storage table. -/
structure DeploymentTable where
  accountName : String
  accountKey : String
  tableName : String
  partitionKey : String
deriving Repr, DecidableEq

/-- One stored lineage row. Stage-1 rows set only the first six fields; later stages
fill or overwrite the optional fields. An `Option` field is `none` when the stored
entity lacks that column, which is what the wildcard matching tests with truthiness. -/
@[ext]
structure TableRow where
  PartitionKey : String
  RowKey : String
  commitId : String
  imageTag : String
  p1 : String
  service : String
  sourceRepo : Option String := none
  p2 : Option String := none
  hldCommitId : Option String := none
  env : Option String := none
  pr : Option String := none
  hldRepo : Option String := none
  p3 : Option String := none
  manifestCommitId : Option String := none
  manifestRepo : Option String := none
deriving Repr, DecidableEq

/-- The stored table content, in the store's native row order. -/
abbrev Store := List TableRow

/-- Lower-casing of a string character by character; embeds the TypeScript
`toLowerCase()` calls of the module (`Char.toLower` handles the basic latin range). -/
def strToLower (s : String) : String :=
  ⟨s.data.map Char.toLower⟩

/-- Whether a string is already lower-case, i.e. lower-casing it changes nothing. -/
def isLowerStr (s : String) : Bool :=
  strToLower s == s

/-- Whether an optional stored value is lower-case; an absent value counts as such. -/
def lowerOpt (x : Option String) : Bool :=
  match x with
  | some s => isLowerStr s
  | none => true

/-- Embeds the JavaScript pattern `if (x) row.field = f(x)` on an optional input:
the field is set only when the input is present and non-empty (truthy). -/
def ifTruthy (x : Option String) (f : String → String) : Option String :=
  match x with
  | some s => if s = "" then none else some (f s)
  | none => none

/-- Column value of a stored row for the filter names the module queries by
(`imageTag`, `hldCommitId`, `pr`, `p3`, `service`); an absent optional column
yields `none` and hence matches no equality filter, as in the Azure table service. -/
def fieldValue (r : TableRow) (filterName : String) : Option String :=
  if filterName = "imageTag" then some r.imageTag
  else if filterName = "hldCommitId" then r.hldCommitId
  else if filterName = "pr" then r.pr
  else if filterName = "p3" then r.p3
  else if filterName = "service" then some r.service
  else none

/-- Row predicate of the query built by `findMatchingDeployments`:
`PartitionKey eq partitionKey` and `filterName eq filterValue`. -/
def matchesQuery (tableInfo : DeploymentTable) (filterName filterValue : String)
    (r : TableRow) : Bool :=
  r.PartitionKey == tableInfo.partitionKey && fieldValue r filterName == some filterValue

/-- Embeds `findMatchingDeployments`: all rows of the partition whose named column
equals the filter value, in the store's native order. -/
def findMatchingDeployments (store : Store) (tableInfo : DeploymentTable)
    (filterName filterValue : String) : List TableRow :=
  store.filter (matchesQuery tableInfo filterName filterValue)

/-- Embeds `insertToTable` (`insertEntity`): the new row is appended to the store. -/
def insertToTable (store : Store) (entry : TableRow) : Store :=
  store ++ [entry]

/-- Whether two rows denote the same stored entity, i.e. share `PartitionKey` and `RowKey`. -/
def sameKeys (r entry : TableRow) : Bool :=
  r.PartitionKey == entry.PartitionKey && r.RowKey == entry.RowKey

/-- Embeds `updateEntryInTable` (`replaceEntity`): the row with the entry's
`(PartitionKey, RowKey)` pair is replaced by the entry, other rows are untouched. -/
def updateEntryInTable (store : Store) (entry : TableRow) : Store :=
  store.map (fun r => if sameKeys r entry then entry else r)

/-- Removal of the first dash of a character list; embeds the JavaScript
`replace("-", "")`, which with a string pattern replaces only the first occurrence. -/
def removeFirstDash : List Char → List Char
  | [] => []
  | c :: cs => if c = '-' then cs else c :: removeFirstDash cs

/-- Embeds `getRowKey`: `uuid().replace("-", "").substring(0, 12)`; the random
UUID string produced by the `uuid` package is passed in as `uuidStr`. -/
def getRowKey (uuidStr : String) : String :=
  ⟨(removeFirstDash uuidStr.data).take 12⟩

/-- Embeds `addSrcToACRPipeline`: unconditionally builds and inserts a fresh stage-1
row; no query is performed, the store is only appended to. -/
def addSrcToACRPipeline (store : Store) (tableInfo : DeploymentTable) (uuidStr : String)
    (pipelineId imageTag serviceName commitId : String) (repository : Option String) :
    TableRow × Store :=
  let entry : TableRow := {
    PartitionKey := tableInfo.partitionKey
    RowKey := getRowKey uuidStr
    commitId := commitId
    imageTag := imageTag
    p1 := pipelineId
    service := serviceName
    sourceRepo := ifTruthy repository strToLower }
  (entry, insertToTable store entry)

/-- Wildcard exact-match test of the stage-2 resolver: each of `p2`, `hldCommitId`,
`env` must, when present on the candidate, equal the corresponding raw input. -/
def isMatching2 (pipelineId hldCommitId env : String) (entry : TableRow) : Bool :=
  (match entry.p2 with | some v => v == pipelineId | none => true) &&
  (match entry.hldCommitId with | some v => v == hldCommitId | none => true) &&
  (match entry.env with | some v => v == env | none => true)

/-- Row written by `updateMatchingArcToHLDPipelineEntry` for the selected match `found`:
keys and stage-1 fields carried over, stage-2 fields from the inputs lower-cased,
`pr` and `hldRepo` set lower-cased only when supplied. -/
def rowOfMatchingACRToHLD (found : TableRow) (pipelineId hldCommitId env : String)
    (pr repository : Option String) : TableRow :=
  { PartitionKey := found.PartitionKey
    RowKey := found.RowKey
    commitId := found.commitId
    env := some (strToLower env)
    hldCommitId := some (strToLower hldCommitId)
    imageTag := found.imageTag
    p1 := found.p1
    p2 := some (strToLower pipelineId)
    service := found.service
    sourceRepo := found.sourceRepo
    pr := ifTruthy pr strToLower
    hldRepo := ifTruthy repository strToLower }

/-- Embeds `updateMatchingArcToHLDPipelineEntry`: the first candidate passing the
wildcard test is replaced in the store by the updated row; `none` when no candidate
passes (the TypeScript function returns `null`). -/
def updateMatchingArcToHLDPipelineEntry (entries : List TableRow)
    (tableInfo : DeploymentTable) (pipelineId imageTag hldCommitId env : String)
    (pr repository : Option String) (store : Store) : Option (TableRow × Store) :=
  match entries.find? (isMatching2 pipelineId hldCommitId env) with
  | some found =>
    let updateEntry := rowOfMatchingACRToHLD found pipelineId hldCommitId env pr repository
    some (updateEntry, updateEntryInTable store updateEntry)
  | none => none

/-- Row written by `updateLastRowOfArcToHLDPipelines`: a clone of the last candidate
under a fresh `RowKey`, with the stage-2 fields from the inputs lower-cased. -/
def rowOfLastACRToHLD (lastEntry : TableRow) (uuidStr : String)
    (pipelineId hldCommitId env : String) (pr repository : Option String) : TableRow :=
  { PartitionKey := lastEntry.PartitionKey
    RowKey := getRowKey uuidStr
    commitId := lastEntry.commitId
    env := some (strToLower env)
    hldCommitId := some (strToLower hldCommitId)
    imageTag := lastEntry.imageTag
    p1 := lastEntry.p1
    p2 := some (strToLower pipelineId)
    service := lastEntry.service
    sourceRepo := lastEntry.sourceRepo
    pr := ifTruthy pr strToLower
    hldRepo := ifTruthy repository strToLower }

/-- Embeds `updateLastRowOfArcToHLDPipelines`: clones the last candidate into a new
row and inserts it; `none` models the crash on an empty candidate list, which the
caller rules out. -/
def updateLastRowOfArcToHLDPipelines (entries : List TableRow)
    (tableInfo : DeploymentTable) (uuidStr : String)
    (pipelineId imageTag hldCommitId env : String) (pr repository : Option String)
    (store : Store) : Option (TableRow × Store) :=
  match entries.getLast? with
  | some lastEntry =>
    let last := rowOfLastACRToHLD lastEntry uuidStr pipelineId hldCommitId env pr repository
    some (last, insertToTable store last)
  | none => none

/-- Row written by `addNewRowToArcToHLDPipelines`: a synthetic stage-2 row with blank
stage-1 fields; `imageTag` and the stage-2 fields come from the inputs lower-cased. -/
def rowOfNewACRToHLD (tableInfo : DeploymentTable) (uuidStr : String)
    (pipelineId imageTag hldCommitId env : String) (pr repository : Option String) :
    TableRow :=
  { PartitionKey := tableInfo.partitionKey
    RowKey := getRowKey uuidStr
    commitId := ""
    env := some (strToLower env)
    hldCommitId := some (strToLower hldCommitId)
    imageTag := strToLower imageTag
    p1 := ""
    p2 := some (strToLower pipelineId)
    service := ""
    pr := ifTruthy pr strToLower
    hldRepo := ifTruthy repository strToLower }

/-- Embeds `addNewRowToArcToHLDPipelines`: inserts the synthetic stage-2 row. -/
def addNewRowToArcToHLDPipelines (tableInfo : DeploymentTable) (uuidStr : String)
    (pipelineId imageTag hldCommitId env : String) (pr repository : Option String)
    (store : Store) : TableRow × Store :=
  let newEntry := rowOfNewACRToHLD tableInfo uuidStr pipelineId imageTag hldCommitId env pr repository
  (newEntry, insertToTable store newEntry)

/-- Embeds `updateACRToHLDPipeline`, the stage-2 resolver: query candidates by
`imageTag`, then mutate the first wildcard match, else clone the last candidate,
else insert a synthetic row. -/
def updateACRToHLDPipeline (store : Store) (tableInfo : DeploymentTable) (uuidStr : String)
    (pipelineId imageTag hldCommitId env : String) (pr repository : Option String) :
    Option (TableRow × Store) :=
  let entries := findMatchingDeployments store tableInfo "imageTag" imageTag
  if entries.length > 0 then
    match updateMatchingArcToHLDPipelineEntry entries tableInfo pipelineId imageTag
        hldCommitId env pr repository store with
    | some found => some found
    | none =>
      updateLastRowOfArcToHLDPipelines entries tableInfo uuidStr pipelineId imageTag
        hldCommitId env pr repository store
  else
    some (addNewRowToArcToHLDPipelines tableInfo uuidStr pipelineId imageTag
      hldCommitId env pr repository store)

/-- Wildcard exact-match test of the stage-3 resolver: the candidate's `p3` must,
when present, equal the input run id, and its `manifestCommitId` must, when present,
equal the input manifest commit id (comparison against an absent input fails). -/
def isMatching3 (pipelineId : String) (manifestCommitId : Option String)
    (entry : TableRow) : Bool :=
  (match entry.p3 with | some v => v == pipelineId | none => true) &&
  (match entry.manifestCommitId with
    | some v => (match manifestCommitId with | some m => v == m | none => false)
    | none => true)

/-- Row written by `updateHLDtoManifestEntry` for the selected match `found`:
upstream fields carried over, `hldCommitId` overwritten with the raw input,
`p3` from the run id lower-cased, `manifestCommitId` and `manifestRepo` set
lower-cased when supplied, `pr` set verbatim when supplied. -/
def rowOfMatchingHLDToManifest (found : TableRow) (hldCommitId pipelineId : String)
    (manifestCommitId pr repository : Option String) : TableRow :=
  { PartitionKey := found.PartitionKey
    RowKey := found.RowKey
    commitId := found.commitId
    env := found.env
    hldCommitId := some hldCommitId
    hldRepo := found.hldRepo
    imageTag := found.imageTag
    p1 := found.p1
    p2 := found.p2
    p3 := some (strToLower pipelineId)
    service := found.service
    sourceRepo := found.sourceRepo
    manifestCommitId := ifTruthy manifestCommitId strToLower
    pr := ifTruthy pr id
    manifestRepo := ifTruthy repository strToLower }

/-- Embeds `updateHLDtoManifestEntry`: the first candidate passing the stage-3
wildcard test is replaced in the store by the updated row; `none` when no candidate
passes (the TypeScript function returns `null`). -/
def updateHLDtoManifestEntry (entries : List TableRow) (tableInfo : DeploymentTable)
    (hldCommitId pipelineId : String) (manifestCommitId pr repository : Option String)
    (store : Store) : Option (TableRow × Store) :=
  match entries.find? (isMatching3 pipelineId manifestCommitId) with
  | some found =>
    let entry := rowOfMatchingHLDToManifest found hldCommitId pipelineId manifestCommitId pr repository
    some (entry, updateEntryInTable store entry)
  | none => none

/-- Row written by `updateLastHLDtoManifestEntry`: a clone of the last candidate
under a fresh `RowKey`, with the stage-3 fields from the inputs lower-cased. -/
def rowOfLastHLDToManifest (lastEntry : TableRow) (uuidStr : String)
    (hldCommitId pipelineId : String) (manifestCommitId pr repository : Option String) :
    TableRow :=
  { PartitionKey := lastEntry.PartitionKey
    RowKey := getRowKey uuidStr
    commitId := lastEntry.commitId
    env := lastEntry.env
    hldCommitId := some (strToLower hldCommitId)
    hldRepo := lastEntry.hldRepo
    imageTag := lastEntry.imageTag
    p1 := lastEntry.p1
    p2 := lastEntry.p2
    p3 := some (strToLower pipelineId)
    service := lastEntry.service
    sourceRepo := lastEntry.sourceRepo
    manifestCommitId := ifTruthy manifestCommitId strToLower
    pr := ifTruthy pr strToLower
    manifestRepo := ifTruthy repository strToLower }

/-- Embeds `updateLastHLDtoManifestEntry`: clones the last candidate into a new row
and inserts it; `none` models the crash on an empty candidate list, which the caller
rules out. -/
def updateLastHLDtoManifestEntry (entries : List TableRow) (tableInfo : DeploymentTable)
    (uuidStr : String) (hldCommitId pipelineId : String)
    (manifestCommitId pr repository : Option String) (store : Store) :
    Option (TableRow × Store) :=
  match entries.getLast? with
  | some lastEntry =>
    let newEntry := rowOfLastHLDToManifest lastEntry uuidStr hldCommitId pipelineId
      manifestCommitId pr repository
    some (newEntry, insertToTable store newEntry)
  | none => none

/-- Row written by `addNewRowToHLDtoManifestPipeline`: a synthetic stage-3 row with
blank (empty but present) upstream fields and the stage-3 fields from the inputs
lower-cased. -/
def rowOfNewHLDToManifest (tableInfo : DeploymentTable) (uuidStr : String)
    (hldCommitId pipelineId : String) (manifestCommitId pr repository : Option String) :
    TableRow :=
  { PartitionKey := tableInfo.partitionKey
    RowKey := getRowKey uuidStr
    commitId := ""
    env := some ""
    hldCommitId := some (strToLower hldCommitId)
    imageTag := ""
    p1 := ""
    p2 := some ""
    p3 := some (strToLower pipelineId)
    service := ""
    manifestCommitId := ifTruthy manifestCommitId strToLower
    pr := ifTruthy pr strToLower
    manifestRepo := ifTruthy repository strToLower }

/-- Embeds `addNewRowToHLDtoManifestPipeline`: inserts the synthetic stage-3 row. -/
def addNewRowToHLDtoManifestPipeline (tableInfo : DeploymentTable) (uuidStr : String)
    (hldCommitId pipelineId : String) (manifestCommitId pr repository : Option String)
    (store : Store) : TableRow × Store :=
  let newEntry := rowOfNewHLDToManifest tableInfo uuidStr hldCommitId pipelineId
    manifestCommitId pr repository
  (newEntry, insertToTable store newEntry)

/-- Embeds `updateHLDtoManifestHelper`: mutate the first wildcard match, else clone
the last candidate, else insert a synthetic stage-3 row. -/
def updateHLDtoManifestHelper (entries : List TableRow) (tableInfo : DeploymentTable)
    (uuidStr : String) (hldCommitId pipelineId : String)
    (manifestCommitId pr repository : Option String) (store : Store) :
    Option (TableRow × Store) :=
  if entries.length > 0 then
    match updateHLDtoManifestEntry entries tableInfo hldCommitId pipelineId
        manifestCommitId pr repository store with
    | some updated => some updated
    | none =>
      updateLastHLDtoManifestEntry entries tableInfo uuidStr hldCommitId pipelineId
        manifestCommitId pr repository store
  else
    some (addNewRowToHLDtoManifestPipeline tableInfo uuidStr hldCommitId pipelineId
      manifestCommitId pr repository store)

/-- Embeds `updateHLDToManifestPipeline`, the stage-3 resolver: query candidates by
`hldCommitId`; when that yields nothing and a truthy PR id was supplied, re-query by
`pr`; then apply the three-tier helper policy. -/
def updateHLDToManifestPipeline (store : Store) (tableInfo : DeploymentTable)
    (uuidStr : String) (hldCommitId pipelineId : String)
    (manifestCommitId pr repository : Option String) : Option (TableRow × Store) :=
  let entries0 := findMatchingDeployments store tableInfo "hldCommitId" hldCommitId
  let entries :=
    match entries0, pr with
    | [], some prId =>
      if prId = "" then entries0
      else findMatchingDeployments store tableInfo "pr" prId
    | _, _ => entries0
  updateHLDtoManifestHelper entries tableInfo uuidStr hldCommitId pipelineId
    manifestCommitId pr repository store

/-- Row written by `updateManifestCommitId`: the queried entry with its
`manifestCommitId` overwritten by the raw input, and `manifestRepo` overwritten
lower-cased only when a repository is supplied. -/
def rowOfManifestUpdate (entry : TableRow) (manifestCommitId : String)
    (repository : Option String) : TableRow :=
  { entry with
    manifestCommitId := some manifestCommitId
    manifestRepo :=
      match repository with
      | some r => if r = "" then entry.manifestRepo else some (strToLower r)
      | none => entry.manifestRepo }

/-- Embeds `updateManifestCommitId`, the manifest-commit finalizer: query by exact
`p3` equality; replace the first entry found, or fail leaving the store unchanged
(the TypeScript function throws before any write). -/
def updateManifestCommitId (store : Store) (tableInfo : DeploymentTable)
    (pipelineId manifestCommitId : String) (repository : Option String) :
    Except String TableRow × Store :=
  let entries := findMatchingDeployments store tableInfo "p3" pipelineId
  match entries with
  | entry :: _ =>
    let updated := rowOfManifestUpdate entry manifestCommitId repository
    (Except.ok updated, updateEntryInTable store updated)
  | [] =>
    (Except.error ("No manifest generation found to update manifest commit " ++ manifestCommitId),
      store)

/-- Hexadecimal digit test, used to state what a canonical UUID is made of. -/
def isHexDigit (c : Char) : Bool :=
  c.isDigit || ('a' ≤ c && c ≤ 'f') || ('A' ≤ c && c ≤ 'F')

/-- Canonical 36-character dash-separated UUID shape, as produced by the `uuid`
package: five groups of 8, 4, 4, 4 and 12 hexadecimal digits joined by dashes. -/
def isCanonicalUuid (s : String) : Prop :=
  ∃ a b c d e : List Char,
    s.data = a ++ '-' :: (b ++ '-' :: (c ++ '-' :: (d ++ '-' :: e))) ∧
    a.length = 8 ∧ b.length = 4 ∧ c.length = 4 ∧ d.length = 4 ∧ e.length = 12 ∧
    a.all isHexDigit = true ∧ b.all isHexDigit = true ∧ c.all isHexDigit = true ∧
    d.all isHexDigit = true ∧ e.all isHexDigit = true

/-- Post-state of a finalizer call: the returned store, which on a thrown error is
the untouched input store. -/
def finalizerStore (result : Except String TableRow × Store) : Store :=
  result.2

/-- The `hldCommitId` field of the row returned by a stage-3 resolver call, when the
call succeeds; used to exhibit what the resolver stored. -/
def storedHldCommitId (result : Option (TableRow × Store)) : Option (Option String) :=
  match result with
  | some p => some p.1.hldCommitId
  | none => none

/-- Table descriptor used by the concrete evaluations below. -/
def ti0 : DeploymentTable := ⟨"acct", "key", "tbl", "part"⟩

/-- A stage-1 row, candidate for the stage-2 wildcard match. -/
def r0 : TableRow :=
  { PartitionKey := "part", RowKey := "k1", commitId := "c1", imageTag := "tag1",
    p1 := "1", service := "svc" }

/-- A stage-2 row whose stage-2 fields disagree with the inputs used below, so the
stage-2 resolver takes its clone branch on it. -/
def r3 : TableRow :=
  { PartitionKey := "part", RowKey := "k4", commitId := "c1", imageTag := "tag1",
    p1 := "1", service := "svc", p2 := some "9", hldCommitId := some "x",
    env := some "dev" }

/-- A stage-3 row carrying a `p3` run id, input to the finalizer evaluations. -/
def r1 : TableRow :=
  { PartitionKey := "part", RowKey := "k2", commitId := "c", imageTag := "t",
    p1 := "1", service := "s", p3 := some "p3run" }

/-- The row the finalizer writes when run on `r1`. -/
def w1 : TableRow := { r1 with manifestCommitId := some "MAN" }

/-- A stage-2 row reachable only through the `pr` fallback query: its `hldCommitId`
differs from the stage-3 input, its `pr` is `42`. -/
def r5 : TableRow :=
  { PartitionKey := "part", RowKey := "k3", commitId := "c", imageTag := "t",
    p1 := "1", service := "s", p2 := some "2", hldCommitId := some "oldhld",
    env := some "qa", pr := some "42" }

end Spk

namespace Spk

theorem charToNat_ofNat_valid (n : Nat) (h : n.isValidChar) : (Char.ofNat n).toNat = n := by
  unfold Char.ofNat
  rw [dif_pos h]
  rfl

theorem charToLower_notUpper (c : Char) :
    ¬(65 ≤ (Char.toLower c).toNat ∧ (Char.toLower c).toNat ≤ 90) := by
  unfold Char.toLower
  by_cases h : 65 ≤ c.toNat ∧ c.toNat ≤ 90
  · rw [if_pos h]
    have hv : (c.toNat + 32).isValidChar := by
      constructor
      omega
    rw [charToNat_ofNat_valid _ hv]
    omega
  · rw [if_neg h]
    exact h

theorem charToLower_idem (c : Char) : (Char.toLower c).toLower = Char.toLower c := by
  have h := charToLower_notUpper c
  generalize Char.toLower c = x at h ⊢
  unfold Char.toLower
  exact if_neg h

theorem strToLower_idem (s : String) : strToLower (strToLower s) = strToLower s := by
  unfold strToLower
  simp [List.map_map, Function.comp_def, charToLower_idem]

theorem isLowerStr_strToLower (s : String) : isLowerStr (strToLower s) = true := by
  simp [isLowerStr, strToLower_idem]

theorem lowerOpt_some_strToLower (s : String) :
    lowerOpt (some (strToLower s)) = true := by
  simp [lowerOpt, isLowerStr_strToLower]

theorem lowerOpt_ifTruthy_strToLower (x : Option String) :
    lowerOpt (ifTruthy x strToLower) = true := by
  cases x with
  | none => rfl
  | some s =>
    by_cases h : s = "" <;> simp [ifTruthy, lowerOpt, h, isLowerStr_strToLower]

theorem hexDigit_ne_dash (c : Char) (h : isHexDigit c = true) : c ≠ '-' := by
  intro hc
  subst hc
  exact absurd h (by decide)

theorem removeFirstDash_append (a r : List Char) (h : ∀ c ∈ a, c ≠ '-') :
    removeFirstDash (a ++ '-' :: r) = a ++ r := by
  induction a with
  | nil => simp [removeFirstDash]
  | cons x xs ih =>
    have hx : x ≠ '-' := h x (List.mem_cons_self x xs)
    simp only [List.cons_append, removeFirstDash, if_neg hx]
    rw [List.append_eq, ih (fun c hc => h c (List.mem_cons_of_mem x hc))]

/-- C10: on every canonical 36-character dash-separated UUID the row-key generator
yields a string of exactly 12 characters, all hexadecimal and none a dash, although
only the first dash is removed before truncating: the removed dash sits at index 8,
so the first 12 remaining characters are the first two all-hex groups. -/
theorem getRowKey_of_canonicalUuid (s : String) (h : isCanonicalUuid s) :
    (getRowKey s).length = 12 ∧ (getRowKey s).data.all isHexDigit = true ∧
      '-' ∉ (getRowKey s).data := by
  obtain ⟨a, b, c, d, e, hdata, ha, hb, hc, hd, he, hxa, hxb, hxc, hxd, hxe⟩ := h
  have hnd : ∀ x ∈ a, x ≠ '-' := fun x hx =>
    hexDigit_ne_dash x (List.all_eq_true.mp hxa x hx)
  have hkey : (getRowKey s).data = a ++ b := by
    show (removeFirstDash s.data).take 12 = a ++ b
    rw [hdata, removeFirstDash_append a _ hnd]
    have h12 : 12 = a.length + 4 := by rw [ha]
    rw [h12, List.take_append, ← hb, List.take_left]
  refine ⟨?_, ?_, ?_⟩
  · show (getRowKey s).data.length = 12
    rw [hkey]
    simp [ha, hb]
  · rw [hkey]
    simp only [List.all_append, hxa, hxb]
    rfl
  · rw [hkey]
    intro hmem
    have : isHexDigit '-' = true := by
      rcases List.mem_append.mp hmem with hma | hmb
      · exact List.all_eq_true.mp hxa _ hma
      · exact List.all_eq_true.mp hxb _ hmb
    exact absurd this (by decide)

theorem getRowKey_of_canonicalUuid_witness :
    (getRowKey "b510c1ff-358c-4ed4-96c8-eb23f42bb65b").length = 12 ∧
      (getRowKey "b510c1ff-358c-4ed4-96c8-eb23f42bb65b").data.all isHexDigit = true ∧
      '-' ∉ (getRowKey "b510c1ff-358c-4ed4-96c8-eb23f42bb65b").data :=
  getRowKey_of_canonicalUuid "b510c1ff-358c-4ed4-96c8-eb23f42bb65b"
    ⟨"b510c1ff".data, "358c".data, "4ed4".data, "96c8".data, "eb23f42bb65b".data,
      by decide, by decide, by decide, by decide, by decide, by decide,
      by decide, by decide, by decide, by decide, by decide⟩

/-- C8: the stage-1 resolver performs no query and unconditionally appends one new
record whose `p1`, `imageTag`, `service` and `commitId` equal the inputs verbatim and
whose `RowKey` is the freshly generated key; the written record is determined by the
inputs alone, independently of the store. -/
theorem addSrcToACRPipeline_inserts_verbatim (store : Store) (tableInfo : DeploymentTable)
    (uuidStr pipelineId imageTag serviceName commitId : String)
    (repository : Option String) :
    ∃ w, addSrcToACRPipeline store tableInfo uuidStr pipelineId imageTag serviceName
        commitId repository = (w, store ++ [w]) ∧
      w.p1 = pipelineId ∧ w.imageTag = imageTag ∧ w.service = serviceName ∧
      w.commitId = commitId ∧ w.RowKey = getRowKey uuidStr ∧
      w.PartitionKey = tableInfo.partitionKey ∧
      w.sourceRepo = ifTruthy repository strToLower :=
  ⟨_, rfl, rfl, rfl, rfl, rfl, rfl, rfl, rfl⟩

/-- C2: when the stage-2 candidate query is non-empty and some candidate passes the
wildcard exact-match rule, the first such candidate is mutated in place: keys and
stage-1 fields are preserved, `p2`/`hldCommitId`/`env` are set from the inputs, and
the store keeps the same record count (a replace, not an insert). -/
theorem updateACRToHLDPipeline_mutates_match (store : Store) (tableInfo : DeploymentTable)
    (uuidStr pipelineId imageTag hldCommitId env : String)
    (pr repository : Option String) (found : TableRow)
    (hfind : (findMatchingDeployments store tableInfo "imageTag" imageTag).find?
        (isMatching2 pipelineId hldCommitId env) = some found) :
    ∃ w store2,
      updateACRToHLDPipeline store tableInfo uuidStr pipelineId imageTag hldCommitId env
          pr repository = some (w, store2) ∧
      w.RowKey = found.RowKey ∧ w.PartitionKey = found.PartitionKey ∧
      w.commitId = found.commitId ∧ w.imageTag = found.imageTag ∧ w.p1 = found.p1 ∧
      w.service = found.service ∧ w.sourceRepo = found.sourceRepo ∧
      w.p2 = some (strToLower pipelineId) ∧
      w.hldCommitId = some (strToLower hldCommitId) ∧
      w.env = some (strToLower env) ∧
      store2 = updateEntryInTable store w ∧ store2.length = store.length := by
  have hpos : 0 < (findMatchingDeployments store tableInfo "imageTag" imageTag).length :=
    List.length_pos_of_mem (List.mem_of_find?_eq_some hfind)
  refine ⟨rowOfMatchingACRToHLD found pipelineId hldCommitId env pr repository,
    updateEntryInTable store (rowOfMatchingACRToHLD found pipelineId hldCommitId env pr repository),
    ?_, rfl, rfl, rfl, rfl, rfl, rfl, rfl, rfl, rfl, rfl, rfl, ?_⟩
  · simp only [updateACRToHLDPipeline, updateMatchingArcToHLDPipelineEntry]
    rw [if_pos hpos, hfind]
  · simp [updateEntryInTable]

theorem updateACRToHLDPipeline_mutates_match_witness :
    ∃ w store2,
      updateACRToHLDPipeline [r0] ti0 "u" "P2" "tag1" "DEF" "QA" none none
        = some (w, store2) ∧
      w.RowKey = r0.RowKey ∧ w.PartitionKey = r0.PartitionKey ∧
      w.commitId = r0.commitId ∧ w.imageTag = r0.imageTag ∧ w.p1 = r0.p1 ∧
      w.service = r0.service ∧ w.sourceRepo = r0.sourceRepo ∧
      w.p2 = some (strToLower "P2") ∧ w.hldCommitId = some (strToLower "DEF") ∧
      w.env = some (strToLower "QA") ∧
      store2 = updateEntryInTable [r0] w ∧ store2.length = [r0].length :=
  updateACRToHLDPipeline_mutates_match [r0] ti0 "u" "P2" "tag1" "DEF" "QA" none none r0
    (by decide)

/-- C3: when stage-2 candidates exist but none passes the wildcard rule, a new record
is appended under the freshly generated `RowKey`, carrying the last candidate's
`commitId`/`imageTag`/`p1`/`service`/`sourceRepo` and the lower-cased inputs for
`env`/`hldCommitId`/`p2`; appending leaves every existing record, in particular the
source candidate, untouched. -/
theorem updateACRToHLDPipeline_clones_last (store : Store) (tableInfo : DeploymentTable)
    (uuidStr pipelineId imageTag hldCommitId env : String)
    (pr repository : Option String) (lastEntry : TableRow)
    (hfind : (findMatchingDeployments store tableInfo "imageTag" imageTag).find?
        (isMatching2 pipelineId hldCommitId env) = none)
    (hlast : (findMatchingDeployments store tableInfo "imageTag" imageTag).getLast?
        = some lastEntry) :
    ∃ w,
      updateACRToHLDPipeline store tableInfo uuidStr pipelineId imageTag hldCommitId env
          pr repository = some (w, store ++ [w]) ∧
      w.RowKey = getRowKey uuidStr ∧ w.commitId = lastEntry.commitId ∧
      w.imageTag = lastEntry.imageTag ∧ w.p1 = lastEntry.p1 ∧
      w.service = lastEntry.service ∧ w.sourceRepo = lastEntry.sourceRepo ∧
      w.env = some (strToLower env) ∧ w.hldCommitId = some (strToLower hldCommitId) ∧
      w.p2 = some (strToLower pipelineId) := by
  have hne : findMatchingDeployments store tableInfo "imageTag" imageTag ≠ [] := by
    intro h0
    rw [h0] at hlast
    exact Option.noConfusion hlast
  have hpos : 0 < (findMatchingDeployments store tableInfo "imageTag" imageTag).length :=
    List.length_pos.mpr hne
  refine ⟨rowOfLastACRToHLD lastEntry uuidStr pipelineId hldCommitId env pr repository,
    ?_, rfl, rfl, rfl, rfl, rfl, rfl, rfl, rfl, rfl⟩
  simp only [updateACRToHLDPipeline, updateMatchingArcToHLDPipelineEntry,
    updateLastRowOfArcToHLDPipelines]
  rw [if_pos hpos, hfind, hlast]
  rfl

theorem updateACRToHLDPipeline_clones_last_witness :
    ∃ w,
      updateACRToHLDPipeline [r3] ti0 "u" "P2" "tag1" "DEF" "QA" none none
        = some (w, [r3] ++ [w]) ∧
      w.RowKey = getRowKey "u" ∧ w.commitId = r3.commitId ∧
      w.imageTag = r3.imageTag ∧ w.p1 = r3.p1 ∧
      w.service = r3.service ∧ w.sourceRepo = r3.sourceRepo ∧
      w.env = some (strToLower "QA") ∧ w.hldCommitId = some (strToLower "DEF") ∧
      w.p2 = some (strToLower "P2") :=
  updateACRToHLDPipeline_clones_last [r3] ti0 "u" "P2" "tag1" "DEF" "QA" none none r3
    (by decide) (by decide)

/-- C4: when the stage-2 candidate query by `imageTag` is empty, the resolver appends
a synthetic record under the freshly generated `RowKey` with blank
`commitId`/`p1`/`service` and the lower-cased inputs for `env`/`hldCommitId`. -/
theorem updateACRToHLDPipeline_degraded_insert (store : Store) (tableInfo : DeploymentTable)
    (uuidStr pipelineId imageTag hldCommitId env : String)
    (pr repository : Option String)
    (hempty : findMatchingDeployments store tableInfo "imageTag" imageTag = []) :
    ∃ w,
      updateACRToHLDPipeline store tableInfo uuidStr pipelineId imageTag hldCommitId env
          pr repository = some (w, store ++ [w]) ∧
      w.RowKey = getRowKey uuidStr ∧ w.commitId = "" ∧ w.p1 = "" ∧ w.service = "" ∧
      w.env = some (strToLower env) ∧
      w.hldCommitId = some (strToLower hldCommitId) := by
  refine ⟨rowOfNewACRToHLD tableInfo uuidStr pipelineId imageTag hldCommitId env pr
    repository, ?_, rfl, rfl, rfl, rfl, rfl, rfl⟩
  simp only [updateACRToHLDPipeline, hempty, List.length_nil, gt_iff_lt,
    Nat.lt_irrefl, if_false]
  rfl

theorem updateACRToHLDPipeline_degraded_insert_witness :
    ∃ w,
      updateACRToHLDPipeline [r1] ti0 "u" "P2" "tagX" "DEF" "QA" none none
        = some (w, [r1] ++ [w]) ∧
      w.RowKey = getRowKey "u" ∧ w.commitId = "" ∧ w.p1 = "" ∧ w.service = "" ∧
      w.env = some (strToLower "QA") ∧ w.hldCommitId = some (strToLower "DEF") :=
  updateACRToHLDPipeline_degraded_insert [r1] ti0 "u" "P2" "tagX" "DEF" "QA" none none
    (by decide)

/-- C5: when the stage-3 query by `hldCommitId` is empty and a non-empty PR id was
supplied, candidates are re-queried by `pr`; a single fallback candidate passing the
stage-3 wildcard rule is then mutated in place, its `hldCommitId` overwritten with
the input value and its `p3` set from the stage-3 run id, by a replace that keeps the
record count unchanged. -/
theorem updateHLDToManifestPipeline_pr_fallback (store : Store)
    (tableInfo : DeploymentTable) (uuidStr hldCommitId pipelineId prId : String)
    (manifestCommitId repository : Option String) (c : TableRow)
    (hpr : prId ≠ "")
    (hempty : findMatchingDeployments store tableInfo "hldCommitId" hldCommitId = [])
    (hprq : findMatchingDeployments store tableInfo "pr" prId = [c])
    (hmatch : isMatching3 pipelineId manifestCommitId c = true) :
    ∃ w store2,
      updateHLDToManifestPipeline store tableInfo uuidStr hldCommitId pipelineId
          manifestCommitId (some prId) repository = some (w, store2) ∧
      w.RowKey = c.RowKey ∧ w.PartitionKey = c.PartitionKey ∧
      w.hldCommitId = some hldCommitId ∧ w.p3 = some (strToLower pipelineId) ∧
      store2 = updateEntryInTable store w ∧ store2.length = store.length := by
  refine ⟨rowOfMatchingHLDToManifest c hldCommitId pipelineId manifestCommitId
      (some prId) repository,
    updateEntryInTable store (rowOfMatchingHLDToManifest c hldCommitId pipelineId
      manifestCommitId (some prId) repository),
    ?_, rfl, rfl, rfl, rfl, rfl, ?_⟩
  · simp only [updateHLDToManifestPipeline, hempty]
    rw [if_neg hpr, hprq]
    simp only [updateHLDtoManifestHelper, updateHLDtoManifestEntry]
    rw [if_pos (by simp), List.find?_cons_of_pos _ hmatch]
  · simp [updateEntryInTable]

theorem updateHLDToManifestPipeline_pr_fallback_witness :
    ∃ w store2,
      updateHLDToManifestPipeline [r5] ti0 "u" "newHLD" "P3" none (some "42") none
        = some (w, store2) ∧
      w.RowKey = r5.RowKey ∧ w.PartitionKey = r5.PartitionKey ∧
      w.hldCommitId = some "newHLD" ∧ w.p3 = some (strToLower "P3") ∧
      store2 = updateEntryInTable [r5] w ∧ store2.length = [r5].length :=
  updateHLDToManifestPipeline_pr_fallback [r5] ti0 "u" "newHLD" "P3" "42" none none r5
    (by decide) (by decide) (by decide) (by decide)

/-- C6: a finalizer call whose query by exact `p3` equality finds no record fails
with the no-correlation error (the thrown message of the TypeScript function,
which the specification names `NoCorrelationFoundError`) and returns the store
unchanged: nothing is inserted or replaced. -/
theorem updateManifestCommitId_no_match_fails (store : Store)
    (tableInfo : DeploymentTable) (pipelineId manifestCommitId : String)
    (repository : Option String)
    (hempty : findMatchingDeployments store tableInfo "p3" pipelineId = []) :
    updateManifestCommitId store tableInfo pipelineId manifestCommitId repository
      = (Except.error ("No manifest generation found to update manifest commit "
          ++ manifestCommitId), store) := by
  simp only [updateManifestCommitId, hempty]

theorem updateManifestCommitId_no_match_fails_witness :
    updateManifestCommitId [r1] ti0 "nope" "MAN" none
      = (Except.error ("No manifest generation found to update manifest commit "
          ++ "MAN"), [r1]) :=
  updateManifestCommitId_no_match_fails [r1] ti0 "nope" "MAN" none (by decide)

theorem sameKeys_refl (r : TableRow) : sameKeys r r = true := by
  simp [sameKeys]

theorem updateEntryInTable_idem (store : Store) (e : TableRow) :
    updateEntryInTable (updateEntryInTable store e) e = updateEntryInTable store e := by
  unfold updateEntryInTable
  induction store with
  | nil => rfl
  | cons x xs ih =>
    simp only [List.map_cons]
    rw [ih]
    congr 1
    by_cases h : sameKeys x e = true
    · simp [h, sameKeys_refl]
    · simp [h]

theorem filter_head_after_replace (p : TableRow → Bool) (e entry : TableRow)
    (hpe : p e = true) (hk : sameKeys entry e = true) :
    ∀ (l rest : List TableRow), l.filter p = entry :: rest →
      ∃ rest2,
        (l.map (fun r => if sameKeys r e then e else r)).filter p = e :: rest2 := by
  intro l
  induction l with
  | nil =>
    intro rest h
    exact absurd h (by simp)
  | cons x xs ih =>
    intro rest h
    by_cases hpx : p x = true
    · rw [List.filter_cons_of_pos hpx] at h
      obtain ⟨hx, hrest⟩ := List.cons.inj h
      subst hx
      refine ⟨(xs.map (fun r => if sameKeys r e then e else r)).filter p, ?_⟩
      simp only [List.map_cons, hk, if_true]
      exact List.filter_cons_of_pos hpe
    · rw [List.filter_cons_of_neg (by simpa using hpx)] at h
      by_cases hke : sameKeys x e = true
      · refine ⟨(xs.map (fun r => if sameKeys r e then e else r)).filter p, ?_⟩
        simp only [List.map_cons, hke, if_true]
        exact List.filter_cons_of_pos hpe
      · obtain ⟨rest2, h2⟩ := ih rest h
        refine ⟨rest2, ?_⟩
        simp only [List.map_cons, hke, if_false]
        rw [List.filter_cons_of_neg (by simpa using hpx)]
        exact h2

/-- C7: re-invoking the manifest-commit finalizer with the same `p3` run id, the
same `manifestCommitId` and the same optional repository leaves the store exactly as
after the first call, and returns the same row. -/
theorem updateManifestCommitId_idempotent (store : Store) (tableInfo : DeploymentTable)
    (pipelineId manifestCommitId : String) (repository : Option String)
    (w : TableRow) (store2 : Store)
    (h1 : updateManifestCommitId store tableInfo pipelineId manifestCommitId repository
        = (Except.ok w, store2)) :
    updateManifestCommitId store2 tableInfo pipelineId manifestCommitId repository
      = (Except.ok w, store2) := by
  rcases hq : findMatchingDeployments store tableInfo "p3" pipelineId with _ | ⟨entry, rest⟩
  · simp only [updateManifestCommitId, hq] at h1
    rw [Prod.mk.injEq] at h1
    exact absurd h1.1 (by simp)
  · simp only [updateManifestCommitId, hq] at h1
    rw [Prod.mk.injEq] at h1
    obtain ⟨hw, hs⟩ := h1
    replace hw := Except.ok.inj hw
    have hpentry : matchesQuery tableInfo "p3" pipelineId entry = true := by
      have hmem0 : entry ∈ findMatchingDeployments store tableInfo "p3" pipelineId := by
        rw [hq]
        exact List.mem_cons_self entry rest
      have hmem : entry ∈ store.filter (matchesQuery tableInfo "p3" pipelineId) := hmem0
      exact (List.mem_filter.mp hmem).2
    have hpw : matchesQuery tableInfo "p3" pipelineId
        (rowOfManifestUpdate entry manifestCommitId repository) = true := hpentry
    have hk : sameKeys entry (rowOfManifestUpdate entry manifestCommitId repository)
        = true := by
      simp [sameKeys, rowOfManifestUpdate]
    obtain ⟨rest2, hf2⟩ := filter_head_after_replace
      (matchesQuery tableInfo "p3" pipelineId)
      (rowOfManifestUpdate entry manifestCommitId repository) entry hpw hk store rest hq
    have hf2s : findMatchingDeployments store2 tableInfo "p3" pipelineId
        = rowOfManifestUpdate entry manifestCommitId repository :: rest2 := by
      rw [← hs]
      exact hf2
    have hww : rowOfManifestUpdate (rowOfManifestUpdate entry manifestCommitId repository)
        manifestCommitId repository
        = rowOfManifestUpdate entry manifestCommitId repository := by
      unfold rowOfManifestUpdate
      cases repository with
      | none => rfl
      | some r =>
        by_cases hr : r = ""
        · simp [hr]
        · simp [hr]
    have hstore : updateEntryInTable store2
        (rowOfManifestUpdate entry manifestCommitId repository) = store2 := by
      rw [← hs]
      exact updateEntryInTable_idem store _
    simp only [updateManifestCommitId, hf2s]
    rw [hww, hstore, hw]

theorem updateManifestCommitId_idempotent_witness :
    updateManifestCommitId [w1] ti0 "p3run" "MAN" none = (Except.ok w1, [w1]) :=
  updateManifestCommitId_idempotent [r1] ti0 "p3run" "MAN" none w1 [w1] (by rfl)

theorem eq_keys_of_sameKeys (r e : TableRow) (h : sameKeys r e = true) :
    r.PartitionKey = e.PartitionKey ∧ r.RowKey = e.RowKey := by
  simpa [sameKeys] using h

theorem updateEntryInTable_no_key (e : TableRow) :
    ∀ store : Store, (∀ r ∈ store, sameKeys r e = false) →
      updateEntryInTable store e = store := by
  intro store
  induction store with
  | nil =>
    intro h
    rfl
  | cons x xs ih =>
    intro h
    show (if sameKeys x e then e else x) :: updateEntryInTable xs e = x :: xs
    rw [ih (fun r hr => h r (List.mem_cons_of_mem x hr)),
      if_neg (by simp [h x (List.mem_cons_self x xs)])]

theorem updateEntryInTable_eq_set (e : TableRow) :
    ∀ (store : Store) (i : Nat) (hi : i < store.length),
      (store.map (fun r => (r.PartitionKey, r.RowKey))).Nodup →
      sameKeys (store.get ⟨i, hi⟩) e = true →
      updateEntryInTable store e = store.set i e := by
  intro store
  induction store with
  | nil =>
    intro i hi
    exact absurd hi (by simp)
  | cons x xs ih =>
    intro i hi hnodup hk
    have hnd := List.nodup_cons.mp
      (show ((x.PartitionKey, x.RowKey) ::
        xs.map (fun r => (r.PartitionKey, r.RowKey))).Nodup from hnodup)
    cases i with
    | zero =>
      have hx : sameKeys x e = true := hk
      have hrest : ∀ r ∈ xs, sameKeys r e = false := by
        intro r hr
        rcases hb : sameKeys r e with _ | _
        · rfl
        · exfalso
          obtain ⟨hre1, hre2⟩ := eq_keys_of_sameKeys r e hb
          obtain ⟨hxe1, hxe2⟩ := eq_keys_of_sameKeys x e hx
          have : (x.PartitionKey, x.RowKey) ∈ xs.map (fun r => (r.PartitionKey, r.RowKey)) :=
            List.mem_map.mpr ⟨r, hr, by simp [hre1, hre2, hxe1, hxe2]⟩
          exact hnd.1 this
      show (if sameKeys x e then e else x) :: updateEntryInTable xs e = e :: xs
      rw [if_pos (by simp [hx]), updateEntryInTable_no_key e xs hrest]
    | succ j =>
      have hj : j < xs.length := by simpa using hi
      have hkj : sameKeys (xs.get ⟨j, hj⟩) e = true := hk
      have hkx : sameKeys x e = false := by
        rcases hb : sameKeys x e with _ | _
        · rfl
        · exfalso
          obtain ⟨hxe1, hxe2⟩ := eq_keys_of_sameKeys x e hb
          obtain ⟨hje1, hje2⟩ := eq_keys_of_sameKeys (xs.get ⟨j, hj⟩) e hkj
          have : (x.PartitionKey, x.RowKey) ∈ xs.map (fun r => (r.PartitionKey, r.RowKey)) :=
            List.mem_map.mpr ⟨xs.get ⟨j, hj⟩, List.get_mem xs j hj, by
              show ((xs.get ⟨j, hj⟩).PartitionKey, (xs.get ⟨j, hj⟩).RowKey)
                = (x.PartitionKey, x.RowKey)
              rw [hje1, hje2, hxe1, hxe2]⟩
          exact hnd.1 this
      show (if sameKeys x e then e else x) :: updateEntryInTable xs e = x :: xs.set j e
      rw [if_neg (by simp [hkx]), ih j hj hnd.2 hkj]

theorem getLast?_cons_exists (x : TableRow) (xs : List TableRow) :
    ∃ y, (x :: xs).getLast? = some y := by
  induction xs generalizing x with
  | nil => exact ⟨x, rfl⟩
  | cons z zs ih => simpa [List.getLast?_cons_cons] using ih z

/-- C9: a stage-2 resolver call on a store with pairwise-distinct entity keys (the
table invariant) always succeeds and performs exactly one write: the resulting store
is either the old store with the written row appended, or the old store with exactly
the one position holding the written row's entity replaced; every other record is
unchanged. -/
theorem updateACRToHLDPipeline_single_write (store : Store) (tableInfo : DeploymentTable)
    (uuidStr pipelineId imageTag hldCommitId env : String)
    (pr repository : Option String)
    (hnodup : (store.map (fun r => (r.PartitionKey, r.RowKey))).Nodup) :
    ∃ w store2,
      updateACRToHLDPipeline store tableInfo uuidStr pipelineId imageTag hldCommitId env
          pr repository = some (w, store2) ∧
      (store2 = store ++ [w] ∨
        ∃ i, ∃ hi : i < store.length, store2 = store.set i w ∧
          sameKeys (store.get ⟨i, hi⟩) w = true) := by
  rcases hq : findMatchingDeployments store tableInfo "imageTag" imageTag with _ | ⟨x, xs⟩
  · refine ⟨rowOfNewACRToHLD tableInfo uuidStr pipelineId imageTag hldCommitId env pr
      repository, store ++ [rowOfNewACRToHLD tableInfo uuidStr pipelineId imageTag
      hldCommitId env pr repository], ?_, Or.inl rfl⟩
    simp only [updateACRToHLDPipeline, hq, List.length_nil, gt_iff_lt, Nat.lt_irrefl,
      if_false]
    rfl
  · rcases hf : (x :: xs).find? (isMatching2 pipelineId hldCommitId env) with _ | found
    · obtain ⟨lastE, hlast⟩ := getLast?_cons_exists x xs
      refine ⟨rowOfLastACRToHLD lastE uuidStr pipelineId hldCommitId env pr repository,
        store ++ [rowOfLastACRToHLD lastE uuidStr pipelineId hldCommitId env pr repository],
        ?_, Or.inl rfl⟩
      simp only [updateACRToHLDPipeline, updateMatchingArcToHLDPipelineEntry,
        updateLastRowOfArcToHLDPipelines, hq, hf, hlast]
      rw [if_pos (by simp)]
      rfl
    · have hmem : found ∈ store := by
        have hmem0 : found ∈ findMatchingDeployments store tableInfo "imageTag" imageTag := by
          rw [hq]
          exact List.mem_of_find?_eq_some hf
        exact List.mem_of_mem_filter hmem0
      obtain ⟨n, hget⟩ := List.mem_iff_get.mp hmem
      have hkeys : sameKeys (store.get n)
          (rowOfMatchingACRToHLD found pipelineId hldCommitId env pr repository) = true := by
        rw [hget]
        simp [sameKeys, rowOfMatchingACRToHLD]
      refine ⟨rowOfMatchingACRToHLD found pipelineId hldCommitId env pr repository,
        updateEntryInTable store
          (rowOfMatchingACRToHLD found pipelineId hldCommitId env pr repository),
        ?_, Or.inr ⟨n.1, n.2, ?_, ?_⟩⟩
      · simp only [updateACRToHLDPipeline, updateMatchingArcToHLDPipelineEntry, hq, hf]
        rw [if_pos (by simp)]
      · exact updateEntryInTable_eq_set _ store n.1 n.2 hnodup hkeys
      · exact hkeys

theorem updateACRToHLDPipeline_single_write_witness :
    ∃ w store2,
      updateACRToHLDPipeline [r0] ti0 "u" "P2" "tag1" "DEF" "QA" none none
        = some (w, store2) ∧
      (store2 = [r0] ++ [w] ∨
        ∃ i, ∃ hi : i < [r0].length, store2 = [r0].set i w ∧
          sameKeys ([r0].get ⟨i, hi⟩) w = true) :=
  updateACRToHLDPipeline_single_write [r0] ti0 "u" "P2" "tag1" "DEF" "QA" none none
    (by decide)

/-- C1 counterexample: the stage-3 in-place mutate stores `hldCommitId` verbatim.
From a store whose only row is all lower-case, a stage-3 call that reaches the
candidate through the `pr` fallback stores the mixed-case input `ABCdef` unchanged
as `hldCommitId`, which is not lower-case. -/
theorem stage3_mutate_stores_mixed_case :
    storedHldCommitId (updateHLDToManifestPipeline [r5] ti0 "u" "ABCdef" "P3" none
        (some "42") none) = some (some "ABCdef") ∧
      isLowerStr "ABCdef" = false :=
  ⟨rfl, by decide⟩

/-- C1 (amended): in the stage-2 mutate/clone/degraded-insert rows and the stage-3
clone/degraded-insert rows, every claimed field written from the call's inputs
(`env`, `hldCommitId`, `pr`, `manifestCommitId`, `hldRepo`, `manifestRepo`) is stored
lower-case whatever the input casing; the two exceptions are the stage-3 in-place
mutate, which stores `hldCommitId` and `pr` verbatim while lower-casing
`manifestCommitId` and `manifestRepo`, and the finalizer, which stores
`manifestCommitId` verbatim while lower-casing `manifestRepo` whenever a repository
is supplied (otherwise keeping the stored value). -/
theorem written_rows_casing (found lastEntry entry : TableRow)
    (tableInfo : DeploymentTable)
    (uuidStr pipelineId imageTag hldCommitId env hldCommitId3 pipelineId3
      manifestCommitIdF : String)
    (manifestCommitId pr repository : Option String) :
    (lowerOpt (rowOfMatchingACRToHLD found pipelineId hldCommitId env pr repository).env
        = true ∧
      lowerOpt (rowOfMatchingACRToHLD found pipelineId hldCommitId env pr
        repository).hldCommitId = true ∧
      lowerOpt (rowOfMatchingACRToHLD found pipelineId hldCommitId env pr repository).pr
        = true ∧
      lowerOpt (rowOfMatchingACRToHLD found pipelineId hldCommitId env pr
        repository).hldRepo = true) ∧
    (lowerOpt (rowOfLastACRToHLD lastEntry uuidStr pipelineId hldCommitId env pr
        repository).env = true ∧
      lowerOpt (rowOfLastACRToHLD lastEntry uuidStr pipelineId hldCommitId env pr
        repository).hldCommitId = true ∧
      lowerOpt (rowOfLastACRToHLD lastEntry uuidStr pipelineId hldCommitId env pr
        repository).pr = true ∧
      lowerOpt (rowOfLastACRToHLD lastEntry uuidStr pipelineId hldCommitId env pr
        repository).hldRepo = true) ∧
    (lowerOpt (rowOfNewACRToHLD tableInfo uuidStr pipelineId imageTag hldCommitId env pr
        repository).env = true ∧
      lowerOpt (rowOfNewACRToHLD tableInfo uuidStr pipelineId imageTag hldCommitId env pr
        repository).hldCommitId = true ∧
      lowerOpt (rowOfNewACRToHLD tableInfo uuidStr pipelineId imageTag hldCommitId env pr
        repository).pr = true ∧
      lowerOpt (rowOfNewACRToHLD tableInfo uuidStr pipelineId imageTag hldCommitId env pr
        repository).hldRepo = true) ∧
    ((rowOfMatchingHLDToManifest found hldCommitId3 pipelineId3 manifestCommitId pr
        repository).hldCommitId = some hldCommitId3 ∧
      (rowOfMatchingHLDToManifest found hldCommitId3 pipelineId3 manifestCommitId pr
        repository).pr = ifTruthy pr id ∧
      lowerOpt (rowOfMatchingHLDToManifest found hldCommitId3 pipelineId3
        manifestCommitId pr repository).manifestCommitId = true ∧
      lowerOpt (rowOfMatchingHLDToManifest found hldCommitId3 pipelineId3
        manifestCommitId pr repository).manifestRepo = true) ∧
    (lowerOpt (rowOfLastHLDToManifest lastEntry uuidStr hldCommitId3 pipelineId3
        manifestCommitId pr repository).hldCommitId = true ∧
      lowerOpt (rowOfLastHLDToManifest lastEntry uuidStr hldCommitId3 pipelineId3
        manifestCommitId pr repository).pr = true ∧
      lowerOpt (rowOfLastHLDToManifest lastEntry uuidStr hldCommitId3 pipelineId3
        manifestCommitId pr repository).manifestCommitId = true ∧
      lowerOpt (rowOfLastHLDToManifest lastEntry uuidStr hldCommitId3 pipelineId3
        manifestCommitId pr repository).manifestRepo = true) ∧
    (lowerOpt (rowOfNewHLDToManifest tableInfo uuidStr hldCommitId3 pipelineId3
        manifestCommitId pr repository).hldCommitId = true ∧
      lowerOpt (rowOfNewHLDToManifest tableInfo uuidStr hldCommitId3 pipelineId3
        manifestCommitId pr repository).pr = true ∧
      lowerOpt (rowOfNewHLDToManifest tableInfo uuidStr hldCommitId3 pipelineId3
        manifestCommitId pr repository).manifestCommitId = true ∧
      lowerOpt (rowOfNewHLDToManifest tableInfo uuidStr hldCommitId3 pipelineId3
        manifestCommitId pr repository).manifestRepo = true) ∧
    ((rowOfManifestUpdate entry manifestCommitIdF repository).manifestCommitId
        = some manifestCommitIdF ∧
      ((rowOfManifestUpdate entry manifestCommitIdF repository).manifestRepo
          = entry.manifestRepo ∨
        lowerOpt (rowOfManifestUpdate entry manifestCommitIdF repository).manifestRepo
          = true)) := by
  refine ⟨⟨lowerOpt_some_strToLower env, lowerOpt_some_strToLower hldCommitId,
      lowerOpt_ifTruthy_strToLower pr, lowerOpt_ifTruthy_strToLower repository⟩,
    ⟨lowerOpt_some_strToLower env, lowerOpt_some_strToLower hldCommitId,
      lowerOpt_ifTruthy_strToLower pr, lowerOpt_ifTruthy_strToLower repository⟩,
    ⟨lowerOpt_some_strToLower env, lowerOpt_some_strToLower hldCommitId,
      lowerOpt_ifTruthy_strToLower pr, lowerOpt_ifTruthy_strToLower repository⟩,
    ⟨rfl, rfl, lowerOpt_ifTruthy_strToLower manifestCommitId,
      lowerOpt_ifTruthy_strToLower repository⟩,
    ⟨lowerOpt_some_strToLower hldCommitId3, lowerOpt_ifTruthy_strToLower pr,
      lowerOpt_ifTruthy_strToLower manifestCommitId,
      lowerOpt_ifTruthy_strToLower repository⟩,
    ⟨lowerOpt_some_strToLower hldCommitId3, lowerOpt_ifTruthy_strToLower pr,
      lowerOpt_ifTruthy_strToLower manifestCommitId,
      lowerOpt_ifTruthy_strToLower repository⟩,
    rfl, ?_⟩
  rcases repository with _ | r
  · exact Or.inl rfl
  · by_cases hr : r = ""
    · exact Or.inl (by simp [rowOfManifestUpdate, hr])
    · exact Or.inr (by simp [rowOfManifestUpdate, hr, lowerOpt_some_strToLower])

end Spk
